import Mathlib

/-!
Shallow embedding of `src/libgadget/treewalk.c` (the MP-Gadget tree-walk engine)
and proofs about the export buffer, the toptree overflow handling, the primary
phase, the queue build, the node culler and the smoothing-length bisection helper.

Machine integers that never overflow in the modelled traces are embedded as
`Nat`/`Int`; `double` arithmetic that uses only field operations and comparisons
is embedded over `ℚ`, and `ngb_narrow_down` (which needs cube roots) over `ℝ`.
Fallible code (`endrun`) is embedded with `Except String`.
-/

set_option maxHeartbeats 1000000

/-- Walk modes of a `LocalTreeWalk` (from `treewalk.h`, an external header):
primary walk over local particles, ghost (secondary) walk for imported queries
(`ev_secondary` sets `lv->mode = 1`), and the toptree export walk. -/
inductive TreeWalkMode where
  | TREEWALK_PRIMARY
  | TREEWALK_GHOSTS
  | TREEWALK_TOPTREE
deriving DecidableEq

/-- Entry of the global `DataIndexTable` (treewalk.c lines 26-31).
`NodeList` has `NODELISTLENGTH = 2` slots (compile-time assertion at line 343),
modelled as a pair. -/
structure data_index where
  Task : Int
  Index : Int
  NodeList : Int × Int
deriving DecidableEq

/-- Modelled from the spec: the top-leaf table maps each pseudo node `no`
(indexed by `no - lastnode`) to its owning task and the index of the anchoring
top-level node in the owner's tree.  The defining header (`forcetree.h`) is not
under `src/`. -/
structure topleaf_data where
  Task : Int
  treenode : Int

/-- Modelled from the spec: the fields of the pre-built force tree that the
export path reads (`forcetree.h` is not under `src/`): `lastnode` separates real
node indices (below) from pseudo-node indices (at or above), and `TopLeaves`
is the top-leaf table. -/
structure ForceTree where
  lastnode : Int
  TopLeaves : Int → topleaf_data

/-- Per-thread state of a local tree walk: the fields of `LocalTreeWalk` used by
the export path.  `ev_init_thread` (lines 64-80) sets `Nexport = 0` and gives the
thread a contiguous slice of the table starting at `DataIndexOffset` with
capacity `BunchSize`. -/
structure LocalTreeWalk where
  mode : TreeWalkMode
  target : Int
  DataIndexOffset : Nat
  BunchSize : Nat
  Nexport : Nat
  NThisParticleExport : Nat
deriving DecidableEq

/-- Pointwise update of the global `DataIndexTable`, modelled as a total map
from table index to entry. -/
def setEntry (table : Nat → data_index) (i : Nat) (e : data_index) :
    Nat → data_index :=
  fun j => if j = i then e else table j

/-- Model of `treewalk_export_particle` (treewalk.c lines 352-386): fatal `endrun` when
not called from a toptree walk at a pseudo node; otherwise either coalesces into
the previous entry's free second `NodeList` slot, or reports overflow (`-1`), or
appends a fresh entry and bumps both counters.  Returns the C `int` result plus
the updated thread state and table. -/
def treewalk_export_particle (tree : ForceTree) (lv : LocalTreeWalk)
    (table : Nat → data_index) (no : Int) :
    Except String (Int × LocalTreeWalk × (Nat → data_index)) :=
  if lv.mode ≠ TreeWalkMode.TREEWALK_TOPTREE ∨ no < tree.lastnode then
    Except.error "Called export not from a toptree."
  else
    let task := (tree.TopLeaves (no - tree.lastnode)).Task
    let nexp := lv.Nexport + lv.DataIndexOffset
    if 1 ≤ lv.NThisParticleExport ∧ (table (nexp - 1)).Task = task ∧
        (table (nexp - 1)).NodeList.2 = -1 then
      Except.ok (0, lv, setEntry table (nexp - 1)
        ⟨(table (nexp - 1)).Task, (table (nexp - 1)).Index,
         ((table (nexp - 1)).NodeList.1,
          (tree.TopLeaves (no - tree.lastnode)).treenode)⟩)
    else if lv.BunchSize ≤ lv.Nexport then
      Except.ok (-1, lv, table)
    else
      Except.ok (0,
        { lv with Nexport := lv.Nexport + 1,
                  NThisParticleExport := lv.NThisParticleExport + 1 },
        setEntry table nexp
          ⟨task, lv.target,
           ((tree.TopLeaves (no - tree.lastnode)).treenode, -1)⟩)

/-- The do-while loop of `treewalk_run` (treewalk.c lines 698-761), projected to
the state that decides how often `ev_primary` runs.  Each sub-iteration's
`Ndone` (the allreduce at line 709 of the per-rank no-overflow flags) is
supplied as an oracle list, since it depends on every rank.  `tw->Nexportfull`
is set to `0` at line 699 and no statement inside the loop body (lines 703-760)
modifies it; `ev_primary` is invoked at line 719 iff `Nexportfull == 0`, and the
loop repeats while `Ndone < NTask`.  Returns the number of `ev_primary`
invocations. -/
def treewalk_run_visit_loop (NTask : Nat) : List Nat → Nat → Nat → Nat
  | [], _, primaryCalls => primaryCalls
  | Ndone :: rest, Nexportfull, primaryCalls =>
    let primaryCalls' := if Nexportfull = 0 then primaryCalls + 1 else primaryCalls
    if Ndone < NTask then treewalk_run_visit_loop NTask rest Nexportfull primaryCalls'
    else primaryCalls'

/-- Largest value of the C type `int64_t`; the initializer of an OpenMP
`reduction(min:...)` private copy of an `int64_t` variable. -/
def int64_max : Int := 2 ^ 63 - 1

/-- Smallest value of the C type `int64_t`; the initializer of an OpenMP
`reduction(max:...)` private copy of an `int64_t` variable. -/
def int64_min : Int := -(2 ^ 63)

/-- Model of `treewalk_add_counters` (treewalk.c lines 779-787), projected to the
(maxNinteractions, minNinteractions) pair of the thread state. -/
def treewalk_add_counters (lv : Int × Int) (ninteractions : Int) : Int × Int :=
  (if lv.1 < ninteractions then ninteractions else lv.1,
   if lv.2 > ninteractions then ninteractions else lv.2)

/-- Per-thread accumulation in `ev_primary`: `ev_init_thread` (lines 69-70)
starts a thread at maxNinteractions = 0 and minNinteractions = 2^45, then
`treewalk_add_counters` runs once per particle the thread visits (via the
`visit` callback, line 879). -/
def thread_counters (counts : List Int) : Int × Int :=
  counts.foldl treewalk_add_counters (0, 2 ^ 45)

/-- Lines 301-304 of `ev_primary`, executed by each thread at the end of the
parallel region on its OpenMP reduction-private copies `priv` (initialized to
the reduction identities: `int64_min` for the max variable, `int64_max` for the
min variable).  Note that line 303 guards the min update by comparing the
private min against `lv->maxNinteractions`, not `lv->minNinteractions`. -/
def ev_primary_join (priv : Int × Int) (lv : Int × Int) : Int × Int :=
  (if priv.1 < lv.1 then lv.1 else priv.1,
   if priv.2 > lv.1 then lv.2 else priv.2)

/-- The (maxNinteractions, minNinteractions) pair stored into `tw` by
`ev_primary` (lines 270-308): the OpenMP `reduction(max: maxNinteractions)` and
`reduction(min: minNinteractions)` combine the entry values (0 and 2^45, line
270) with each thread's private copy.  `threads` lists, per thread, the
interaction count of each particle that thread processed. -/
def ev_primary_counters (threads : List (List Int)) : Int × Int :=
  let privs := threads.map fun cs =>
    ev_primary_join (int64_min, int64_max) (thread_counters cs)
  (privs.foldl (fun a p => max a p.1) 0, privs.foldl (fun a p => min a p.2) (2 ^ 45))

/-- FACT1 (treewalk.c line 17): the decimal constant `0.366025403785`, a
truncation of `0.5 * (sqrt(3) - 1)`, converting a cube's side to the radius of
its enclosing sphere minus half the side. -/
def FACT1 : ℚ := 366025403785 / 1000000000000

/-- Modelled from the spec: the `NEAREST(x, BoxSize)` macro (periodic
nearest-image displacement; defined in a utility header outside `src/`). -/
def NEAREST (x BoxSize : ℚ) : ℚ :=
  if x > 0.5 * BoxSize then x - BoxSize
  else if x < -0.5 * BoxSize then x + BoxSize
  else x

/-- Modelled from the spec: the `DMAX(a, b)` macro (a ternary maximum; defined
in a utility header outside `src/`). -/
def DMAX (a b : ℚ) : ℚ := if a > b then a else b

/-- Fields of a query record read by `cull_node`: the target position
(`query->Pos[3]`). -/
structure TreeWalkQueryBase where
  Pos0 : ℚ
  Pos1 : ℚ
  Pos2 : ℚ

/-- Fields of the neighbour iterator read by `cull_node`: the search radius
`Hsml` and whether `iter->symmetric == NGB_TREEFIND_SYMMETRIC`. -/
structure TreeWalkNgbIterBase where
  Hsml : ℚ
  symmetric : Bool

/-- Fields of a tree node (`struct NODE`, external header) read by `cull_node`:
side length `len`, centre, and `mom.hmax` (the largest smoothing length of the
particles inside). -/
structure NODE where
  len : ℚ
  center0 : ℚ
  center1 : ℚ
  center2 : ℚ
  hmax : ℚ

/-- Model of `cull_node` (treewalk.c lines 890-917): decide whether a node must be
opened (1) or can be discarded (0).  A pure function of its const arguments. -/
def cull_node (I : TreeWalkQueryBase) (iter : TreeWalkNgbIterBase)
    (current : NODE) (BoxSize : ℚ) : Int :=
  let dist : ℚ :=
    if iter.symmetric then DMAX current.hmax iter.Hsml + 0.5 * current.len
    else iter.Hsml + 0.5 * current.len
  let dx0 := NEAREST (current.center0 - I.Pos0) BoxSize
  if dx0 > dist then 0
  else if dx0 < -dist then 0
  else
    let dx1 := NEAREST (current.center1 - I.Pos1) BoxSize
    if dx1 > dist then 0
    else if dx1 < -dist then 0
    else
      let dx2 := NEAREST (current.center2 - I.Pos2) BoxSize
      if dx2 > dist then 0
      else if dx2 < -dist then 0
      else
        let r2 := dx0 * dx0 + dx1 * dx1 + dx2 * dx2
        let dist' := dist + FACT1 * current.len
        if r2 > dist' * dist' then 0 else 1

/-- The claim's search distance: `d = max(N.hmax, I.Hsml) + N.len/2` for
symmetric queries, `d = I.Hsml + N.len/2` otherwise. -/
def cull_dist (iter : TreeWalkNgbIterBase) (current : NODE) : ℚ :=
  if iter.symmetric then max current.hmax iter.Hsml + current.len / 2
  else iter.Hsml + current.len / 2

/-- The claim's keep condition for `cull_node`: every axis's periodic
nearest-image displacement of the node centre from the query position has
absolute value at most `d`, and the sum of squared displacements is at most
`(d + FACT1 * len)^2`. -/
def cull_node_keep (I : TreeWalkQueryBase) (iter : TreeWalkNgbIterBase)
    (current : NODE) (BoxSize : ℚ) : Prop :=
  |NEAREST (current.center0 - I.Pos0) BoxSize| ≤ cull_dist iter current ∧
  |NEAREST (current.center1 - I.Pos1) BoxSize| ≤ cull_dist iter current ∧
  |NEAREST (current.center2 - I.Pos2) BoxSize| ≤ cull_dist iter current ∧
  NEAREST (current.center0 - I.Pos0) BoxSize ^ 2 +
      NEAREST (current.center1 - I.Pos1) BoxSize ^ 2 +
      NEAREST (current.center2 - I.Pos2) BoxSize ^ 2 ≤
    (cull_dist iter current + FACT1 * current.len) ^ 2

/-- The conceptual input list of `treewalk_build_queue`: the loop at lines
227-246 iterates `i` over `[0, size)` and takes `p_i = active_set[i]` when an
active set is given, else `p_i = i` (line 232). -/
def queueInput (active_set : Option (List Int)) (size : Nat) : List Int :=
  match active_set with
  | some l => l.take size
  | none => (List.range size).map Int.ofNat

/-- The per-particle filter of the queue-build loop (lines 234-239): garbage
particles are skipped, then particles failing the `haswork` callback (when one
is supplied). -/
def queueKeep (garbage : Int → Bool) (haswork : Option (Int → Bool)) (p : Int) : Bool :=
  !garbage p && (match haswork with | none => true | some hw => hw p)

/-- Model of `treewalk_build_queue` (treewalk.c lines 195-264).  With no `haswork` and no
garbage flag the caller's active set is adopted verbatim (lines 200-206).
Otherwise the `schedule(static, size/NThread+1)` loop hands thread `tid` the
contiguous index chunk starting at `tid * schedsz` (the chunk size times the
thread count covers `size`, so each thread receives at most one chunk); each
thread appends the survivors of its chunk, in order, to its own queue (lines
244-245), and `gadget_compact_thread_arrays` concatenates the per-thread queues
in thread order (line 248). -/
def treewalk_build_queue (garbage : Int → Bool) (haswork : Option (Int → Bool))
    (active_set : Option (List Int)) (size : Nat) (may_have_garbage : Bool)
    (NThread : Nat) : List Int :=
  if haswork.isNone && !may_have_garbage then queueInput active_set size
  else
    let schedsz := size / NThread + 1
    (((List.range NThread).map fun tid =>
      (((queueInput active_set size).drop (tid * schedsz)).take schedsz).filter
        (queueKeep garbage haswork))).flatten

/-- The claim's sequential queue: scan the active set in input order and keep
exactly the particles that are not garbage and for which `haswork` (when
present) returns true. -/
def seqFilterQueue (garbage : Int → Bool) (haswork : Option (Int → Bool))
    (active_set : Option (List Int)) (size : Nat) : List Int :=
  (queueInput active_set size).filter (queueKeep garbage haswork)

/-- Increment of a per-task running counter (the `real_send_count[task]++` and
`real_recv_count[task]++` pattern of treewalk.c lines 609 and 654). -/
def bumpCount (c : Int → Nat) (t : Int) : Int → Nat :=
  fun s => if s = t then c t + 1 else c s

/-- Buffer positions at which `ev_send_recv_export_import` (treewalk.c lines
596-612) writes each export entry's query: iterating the thread slices of the
DataIndexTable in order (the flattened list `l`), entry `e` is placed at
`real_send_count[e.Task] + Export_offset[e.Task]`, after which the entry's
running task count is bumped. -/
def send_positions (off : Int → Nat) :
    (Int → Nat) → List data_index → List (data_index × Nat)
  | _, [] => []
  | c, e :: rest =>
    (e, c e.Task + off e.Task) :: send_positions off (bumpCount c e.Task) rest

/-- Buffer positions from which `ev_reduce_export_result` (treewalk.c lines
638-665) reads each export entry's returned result before calling
`reduce(place, result, TREEWALK_GHOSTS)`: the same thread-slice iteration with
`real_recv_count[task] + Export_offset[task]`. -/
def recv_positions (off : Int → Nat) :
    (Int → Nat) → List data_index → List (data_index × Nat)
  | _, [] => []
  | c, e :: rest =>
    (e, c e.Task + off e.Task) :: recv_positions off (bumpCount c e.Task) rest

/-- The `Export_count` accumulation of `ev_export_import_counts` (treewalk.c
lines 553-563): scan every thread's slice in order, incrementing the count of
each entry's task. -/
def export_count : List data_index → (Int → Nat) → (Int → Nat)
  | [], c => c
  | e :: rest, c => export_count rest (bumpCount c e.Task)

/-- The `Export_offset` prefix sums of `ev_export_import_counts` (lines
570-574): `Export_offset[0] = 0` (from the memset at line 549) and
`Export_offset[t+1] = Export_offset[t] + Export_count[t]`. -/
def export_offset (cnt : Nat → Nat) : Nat → Nat
  | 0 => 0
  | t + 1 => export_offset cnt t + cnt t

/-- The export offsets of a flattened DataIndexTable, indexed by the
(nonnegative) task id of an entry. -/
def offFor (entries : List data_index) : Int → Nat :=
  fun t =>
    export_offset (fun s => export_count entries (fun _ => 0) (s : Int)) t.toNat

/-- Number of export entries destined to task `t`. -/
def taskCount (l : List data_index) (t : Int) : Nat :=
  l.countP fun e => e.Task == t

/-- The export calls a toptree `visit` makes for one particle: the walk meets
the pseudo nodes `nodes` in a fixed order (the traversal of the replicated top
tree does not depend on the export state) and calls `treewalk_export_particle`
on each; when a call reports overflow the walk returns `-1` at once
(ngb_treefind_threads lines 975-983, treewalk_visit_ngbiter lines 826-831),
otherwise the visit returns `0`. -/
def toptree_visit (tree : ForceTree) : List Int → LocalTreeWalk → (Nat → data_index) →
    Except String (Int × LocalTreeWalk × (Nat → data_index))
  | [], lv, table => Except.ok (0, lv, table)
  | n :: rest, lv, table =>
    match treewalk_export_particle tree lv table n with
    | Except.error e => Except.error e
    | Except.ok (rt, lv', table') =>
      if rt < 0 then Except.ok (-1, lv', table')
      else toptree_visit tree rest lv' table'

/-- One chunk of the hand-rolled dynamic loop of `ev_toptree` (lines 436-454),
for a single-thread run with `tw->WorkSet == NULL` (so particle `i = k`):
process `rem` particles starting at index `k`; per particle set the target,
reset `NThisParticleExport` (line 442) and run the visit; on a negative return
break out of the for loop, else record `lastSucceeded = k` (line 453).
Returns (brokeEarly, final value of k, thread state, table, lastSucceeded). -/
def toptree_chunk (tree : ForceTree) (exports : Nat → List Int) :
    Nat → Nat → LocalTreeWalk → (Nat → data_index) → Int →
    Except String (Bool × Nat × LocalTreeWalk × (Nat → data_index) × Int)
  | 0, k, lv, table, lastSucceeded => Except.ok (false, k, lv, table, lastSucceeded)
  | rem + 1, k, lv, table, lastSucceeded =>
    match toptree_visit tree (exports k)
        { lv with target := (k : Int), NThisParticleExport := 0 } table with
    | Except.error e => Except.error e
    | Except.ok (rt, lv', table') =>
      if rt < 0 then Except.ok (true, k, lv', table', lastSucceeded)
      else toptree_chunk tree exports rem (k + 1) lv' table' (k : Int)

/-- Outcome of the single thread of a one-thread `ev_toptree` parallel region:
the final value of the shadowed inner `lastSucceeded` (declared at line 410),
the thread's `lv->Nexport` as published to `tw->Nexport_thread` (line 477), the
thread's contribution to the `BufferFullFlag` sum reduction, and the table. -/
structure ToptreeThreadOut where
  innerLastSucceeded : Int
  Nexport : Nat
  BufferFullFlag : Nat
  table : Nat → data_index

/-- The do-while chunking loop of `ev_toptree` (lines 424-474) for one thread
(`tw->NThread = 1`, so `atomic_fetch_and_add` returns consecutive chunk starts).
Per round: fetch a chunk at `currentIndex` of size `chnksz`, clamp its end to
`workSetSize` (lines 426-431), halve `chnksz` near the end (lines 432-434), run
the chunk; if afterwards `lv->Nexport >= lv->BunchSize` raise the flag, roll the
partial particle back when `lastSucceeded < end` — with the sanity `endrun` of
lines 467-469 — and leave the loop (lines 455-473); otherwise continue while
`chnk < workSetSize`.  The fuel argument only bounds the recursion; each round
consumes `chnksz >= 1` indices so the supplied fuel is never exhausted. -/
def ev_toptree_loop (tree : ForceTree) (exports : Nat → List Int) (workSetSize : Nat) :
    Nat → Nat → Nat → LocalTreeWalk → (Nat → data_index) → Int →
    Except String ToptreeThreadOut
  | 0, _, _, _, _, _ => Except.error "fuel exhausted"
  | fuel + 1, currentIndex, chnksz, lv, table, lastSucceeded =>
    let chnk := currentIndex
    let currentIndex' := currentIndex + chnksz
    let endk := min (chnk + chnksz) workSetSize
    let chnksz' := if workSetSize < endk + chnksz * 1 ∧ 2 ≤ chnksz then chnksz / 2 else chnksz
    match toptree_chunk tree exports (endk - chnk) chnk lv table lastSucceeded with
    | Except.error e => Except.error e
    | Except.ok (_, k, lv', table', last') =>
      if lv'.BunchSize ≤ lv'.Nexport then
        if last' < (endk : Int) then
          let lv'' := { lv' with Nexport := lv'.Nexport - lv'.NThisParticleExport }
          if 0 < lv'.NThisParticleExport ∧
              (table' (lv''.DataIndexOffset + lv''.Nexport)).Index > (k : Int) then
            Except.error "Something screwed up in export queue"
          else Except.ok ⟨last', lv''.Nexport, 1, table'⟩
        else Except.ok ⟨last', lv'.Nexport, 1, table'⟩
      else if chnk < workSetSize then
        ev_toptree_loop tree exports workSetSize fuel currentIndex' chnksz' lv' table' last'
      else Except.ok ⟨last', lv'.Nexport, 0, table'⟩

/-- The C constant `INT_MAX`: the OpenMP `reduction(min:)` identity for the
`int` variable `lastSucceeded` of line 396. -/
def int_max : Int := 2147483647

/-- Result of `ev_toptree`: the updated `tw->WorkSetStart` and
`tw->BufferFullFlag` (lines 484-485), the published `tw->Nexport_thread[0]`,
plus the final shadowed inner `lastSucceeded` and the table, for inspection. -/
structure ToptreeResult where
  WorkSetStart : Int
  BufferFullFlag : Nat
  Nexport_thread0 : Nat
  innerLastSucceeded : Int
  table : Nat → data_index

/-- Model of `ev_toptree` (treewalk.c lines 388-487) for a single-thread run starting at
`tw->WorkSetStart = workSetStart` with a fresh thread state (`ev_init_thread`:
offset 0, slice capacity `bunchSize`) and initial chunk size
`max(1, min(100, workSetSize / (4*1)))` (lines 419-423).  The updated
`tw->WorkSetStart` is `lastSucceeded + 1` (line 484) where `lastSucceeded` is
the OUTER `int` of line 396: its OpenMP `reduction(min:)` private copy is
initialized to the identity `INT_MAX` and is never written inside the parallel
region, because line 410 declares a new `int64_t lastSucceeded` that shadows it
for the rest of the block; the join therefore yields
`min(workSetSize, INT_MAX)` whatever the threads did. -/
def ev_toptree (tree : ForceTree) (exports : Nat → List Int)
    (workSetStart workSetSize bunchSize : Nat) (table : Nat → data_index) :
    Except String ToptreeResult :=
  let c0 := workSetSize / (4 * 1)
  let c1 := if c0 < 1 then 1 else c0
  let chnksz0 := if c1 > 100 then 100 else c1
  let lv0 : LocalTreeWalk := ⟨TreeWalkMode.TREEWALK_TOPTREE, 0, 0, bunchSize, 0, 0⟩
  match ev_toptree_loop tree exports workSetSize (workSetSize + 2) workSetStart chnksz0
      lv0 table ((workSetStart : Int) - 1) with
  | Except.error e => Except.error e
  | Except.ok r =>
    Except.ok ⟨min (workSetSize : Int) int_max + 1, r.BufferFullFlag, r.Nexport,
      r.innerLastSucceeded, r.table⟩

/-- Projection of an `ev_toptree` outcome to its decidable components:
`(WorkSetStart, innerLastSucceeded, BufferFullFlag, Nexport_thread0)`. -/
def toptree_summary (r : Except String ToptreeResult) : Option (Int × Int × Nat × Nat) :=
  match r with
  | Except.error _ => none
  | Except.ok r => some (r.WorkSetStart, r.innerLastSucceeded, r.BufferFullFlag, r.Nexport_thread0)

/-- The argmin scan of `ngb_narrow_down` (treewalk.c lines 1259-1267): find the
first index whose neighbour count is closest to the desired one; `rem`
iterations starting at index `j`, accumulator `(close, ngbdist)`. -/
noncomputable def ngb_close_loop (numNgb : ℕ → ℝ) (des : ℝ) :
    ℕ → ℕ → ℕ × ℝ → ℕ × ℝ
  | 0, _, acc => acc
  | rem + 1, j, acc =>
    let newdist := |numNgb j - des|
    ngb_close_loop numNgb des rem (j + 1)
      (if newdist < acc.2 then (j, newdist) else acc)

/-- The bracket-update loop of `ngb_narrow_down` (lines 1271-1278): every trial
with too few neighbours moves `left` up; the first trial with too many sets
`right` and breaks. -/
noncomputable def ngb_bracket_loop (radius numNgb : ℕ → ℝ) (des : ℝ) :
    ℕ → ℕ → ℝ × ℝ → ℝ × ℝ
  | 0, _, lr => lr
  | rem + 1, j, lr =>
    let left' := if numNgb j < des then radius j else lr.1
    if numNgb j > des then (left', radius j)
    else ngb_bracket_loop radius numNgb des rem (j + 1) (left', lr.2)

/-- Model of `ngb_narrow_down` (treewalk.c lines 1255-1318) over exact reals, with
`pow(x, 3)` as `x ^ 3` and `pow(x, 1./3)` as the real power `x ^ (1/3 : ℝ)`.
The `radius`/`numNgb` pointers are modelled as total maps because the code
reads `radius[1]` (line 1302) without a bounds check.  Returns
`(hsml, left, right)`: the returned smoothing length and the updated `*left`
and `*right`.  `hsml0` is `radius[close]` (line 1280); `hsml1` the optional
boxsize-capped extrapolation (lines 1282-1295); `hsml2` the clamp to `*right`
(lines 1296-1297); `hsml3` the `*left == 0` extrapolation (lines 1299-1313);
`hsml4` the final clamp to `*left` (lines 1314-1315). -/
noncomputable def ngb_narrow_down (right left : ℝ) (radius numNgb : ℕ → ℝ)
    (maxcmpt : ℕ) (desnumngb : ℤ) (BoxSize : ℝ) : ℝ × ℝ × ℝ :=
  let des : ℝ := (desnumngb : ℝ)
  let close := (ngb_close_loop numNgb des (maxcmpt - 1) 1 (0, |numNgb 0 - des|)).1
  let lr := ngb_bracket_loop radius numNgb des maxcmpt 0 (left, right)
  let hsml0 := radius close
  let hsml1 :=
    if lr.2 > 0.99 * BoxSize then
      let dngbdv :=
        if 1 < maxcmpt ∧ radius (maxcmpt - 1) > radius (maxcmpt - 2) then
          (numNgb (maxcmpt - 1) - numNgb (maxcmpt - 2)) /
            (radius (maxcmpt - 1) ^ 3 - radius (maxcmpt - 2) ^ 3)
        else 0
      let newhsml := 4 * hsml0
      let newhsml :=
        if dngbdv > 0 then
          let dngb := des - numNgb (maxcmpt - 1)
          let newvolume := hsml0 ^ 3 + dngb / dngbdv
          if newvolume ^ ((1 : ℝ) / 3) < newhsml then newvolume ^ ((1 : ℝ) / 3)
          else newhsml
        else newhsml
      newhsml
    else hsml0
  let hsml2 := if hsml1 > lr.2 then lr.2 else hsml1
  let hsml3 :=
    if lr.1 = 0 then
      let dngbdv := if radius 1 > radius 0 then
          (numNgb 1 - numNgb 0) / (radius 1 ^ 3 - radius 0 ^ 3) else 0
      let dngbdv' := if maxcmpt = 1 ∧ radius 0 > 0 then numNgb 0 / radius 0 ^ 3 else dngbdv
      if dngbdv' > 0 then
        (hsml2 ^ 3 + (des - numNgb 0) / dngbdv') ^ ((1 : ℝ) / 3)
      else hsml2
    else hsml2
  let hsml4 := if hsml3 < lr.1 then lr.1 else hsml3
  (hsml4, lr.1, lr.2)

/-- C10: `treewalk_export_particle` aborts with a fatal error exactly when the
mode is not `TREEWALK_TOPTREE` (so also in `TREEWALK_PRIMARY` mode, not just
`TREEWALK_GHOSTS`) or the node index is below the tree's `lastnode`; hence a
successful export can only originate from a toptree walk at a pseudo node. -/
theorem tw_C10_export_guard (tree : ForceTree) (lv : LocalTreeWalk)
    (table : Nat → data_index) (no : Int) :
    (∃ e, treewalk_export_particle tree lv table no = Except.error e) ↔
      (lv.mode ≠ TreeWalkMode.TREEWALK_TOPTREE ∨ no < tree.lastnode) := by
  unfold treewalk_export_particle
  by_cases hg : lv.mode ≠ TreeWalkMode.TREEWALK_TOPTREE ∨ no < tree.lastnode
  · simp only [if_pos hg]
    simp [hg]
  · simp only [if_neg hg]
    simp only [hg, iff_false, not_exists]
    intro e
    split_ifs <;> simp

/-- C4: in `TREEWALK_TOPTREE` mode at a pseudo node, `treewalk_export_particle`
(a) coalesces into the immediately previous entry of the thread's slice when the
thread already exported for this target, that entry has the same destination
task and its second `NodeList` slot is `-1` — returning success without touching
`Nexport`; otherwise (b) returns `-1` when the slice is full; otherwise
(c) appends `{task, target, [treenode, -1]}` and increments both `Nexport` and
`NThisParticleExport`. -/
theorem tw_C4_export_cases (tree : ForceTree) (lv : LocalTreeWalk)
    (table : Nat → data_index) (no : Int)
    (hmode : lv.mode = TreeWalkMode.TREEWALK_TOPTREE)
    (hno : tree.lastnode ≤ no) :
    ((1 ≤ lv.NThisParticleExport ∧
        (table (lv.Nexport + lv.DataIndexOffset - 1)).Task =
          (tree.TopLeaves (no - tree.lastnode)).Task ∧
        (table (lv.Nexport + lv.DataIndexOffset - 1)).NodeList.2 = -1) →
      treewalk_export_particle tree lv table no =
        Except.ok (0, lv, setEntry table (lv.Nexport + lv.DataIndexOffset - 1)
          ⟨(table (lv.Nexport + lv.DataIndexOffset - 1)).Task,
           (table (lv.Nexport + lv.DataIndexOffset - 1)).Index,
           ((table (lv.Nexport + lv.DataIndexOffset - 1)).NodeList.1,
            (tree.TopLeaves (no - tree.lastnode)).treenode)⟩)) ∧
    (¬ (1 ≤ lv.NThisParticleExport ∧
        (table (lv.Nexport + lv.DataIndexOffset - 1)).Task =
          (tree.TopLeaves (no - tree.lastnode)).Task ∧
        (table (lv.Nexport + lv.DataIndexOffset - 1)).NodeList.2 = -1) →
      lv.BunchSize ≤ lv.Nexport →
      treewalk_export_particle tree lv table no = Except.ok (-1, lv, table)) ∧
    (¬ (1 ≤ lv.NThisParticleExport ∧
        (table (lv.Nexport + lv.DataIndexOffset - 1)).Task =
          (tree.TopLeaves (no - tree.lastnode)).Task ∧
        (table (lv.Nexport + lv.DataIndexOffset - 1)).NodeList.2 = -1) →
      lv.Nexport < lv.BunchSize →
      treewalk_export_particle tree lv table no =
        Except.ok (0,
          { lv with Nexport := lv.Nexport + 1,
                    NThisParticleExport := lv.NThisParticleExport + 1 },
          setEntry table (lv.Nexport + lv.DataIndexOffset)
            ⟨(tree.TopLeaves (no - tree.lastnode)).Task, lv.target,
             ((tree.TopLeaves (no - tree.lastnode)).treenode, -1)⟩)) := by
  have hguard : ¬ (lv.mode ≠ TreeWalkMode.TREEWALK_TOPTREE ∨ no < tree.lastnode) := by
    push_neg
    exact ⟨by simp [hmode], hno⟩
  refine ⟨fun hco => ?_, fun hco hfull => ?_, fun hco hroom => ?_⟩
  · unfold treewalk_export_particle
    rw [if_neg hguard, if_pos hco]
  · unfold treewalk_export_particle
    rw [if_neg hguard, if_neg hco, if_pos hfull]
  · unfold treewalk_export_particle
    rw [if_neg hguard, if_neg hco, if_neg (by omega)]

/-- Witness for C4: a concrete first export of a thread (empty slice,
`Nexport = 0`), landing in the append case. -/
theorem tw_C4_export_cases_witness :
    (⟨10, fun i => ⟨1, 100 + i⟩⟩ : ForceTree).lastnode ≤ 10 ∧
      (¬ (1 ≤ (⟨TreeWalkMode.TREEWALK_TOPTREE, 7, 0, 5, 0, 0⟩ : LocalTreeWalk).NThisParticleExport ∧
          ((fun _ => (⟨0, 0, (0, 0)⟩ : data_index)) ((0 : Nat) + 0 - 1)).Task = 1 ∧
          ((fun _ => (⟨0, 0, (0, 0)⟩ : data_index)) ((0 : Nat) + 0 - 1)).NodeList.2 = -1) →
        (0 : Nat) < 5 →
        treewalk_export_particle ⟨10, fun i => ⟨1, 100 + i⟩⟩
            ⟨TreeWalkMode.TREEWALK_TOPTREE, 7, 0, 5, 0, 0⟩
            (fun _ => ⟨0, 0, (0, 0)⟩) 10 =
          Except.ok (0, ⟨TreeWalkMode.TREEWALK_TOPTREE, 7, 0, 5, 1, 1⟩,
            setEntry (fun _ => ⟨0, 0, (0, 0)⟩) 0 ⟨1, 7, (100, -1)⟩)) := by
  refine ⟨by decide, ?_⟩
  have h := tw_C4_export_cases ⟨10, fun i => ⟨1, 100 + i⟩⟩
    ⟨TreeWalkMode.TREEWALK_TOPTREE, 7, 0, 5, 0, 0⟩
    (fun _ => ⟨0, 0, (0, 0)⟩) 10 rfl (by decide)
  exact h.2.2

/-- C2: FALSE on the code.  `tw->Nexportfull` is set to 0 before the retry loop
of `treewalk_run` (line 699) and never incremented, so the guard at line 718
holds in every sub-iteration and `ev_primary` runs once per sub-iteration, not
once per `treewalk_run`.  On a run of one rank whose first sub-iteration
overflowed (oracle `Ndone` sequence `[0, 1]`, `NTask = 1`) `ev_primary` runs
twice, although the claim requires exactly one invocation. -/
theorem tw_C2_primary_once_bug :
    treewalk_run_visit_loop 1 [0, 1] 0 0 = 2 ∧ (2 : Nat) ≠ 1 :=
  ⟨rfl, by decide⟩

theorem le_foldl_max_init : ∀ (l : List Int) (a : Int), a ≤ l.foldl max a
  | [], a => le_refl a
  | x :: l, a => le_trans (le_max_left a x) (le_foldl_max_init l (max a x))

theorem le_foldl_max_mem : ∀ (l : List Int) (a x : Int), x ∈ l → x ≤ l.foldl max a
  | y :: l, a, x, h => by
    rcases List.mem_cons.mp h with h | h
    · subst h
      exact le_trans (le_max_right a x) (le_foldl_max_init l _)
    · exact le_foldl_max_mem l _ x h

theorem foldl_max_cases : ∀ (l : List Int) (a : Int), l.foldl max a = a ∨ l.foldl max a ∈ l
  | [], _ => Or.inl rfl
  | x :: l, a => by
    rcases foldl_max_cases l (max a x) with h | h
    · rcases max_choice a x with h1 | h1
      · exact Or.inl (by rw [List.foldl_cons, h, h1])
      · exact Or.inr (by rw [List.foldl_cons, h, h1]; exact List.mem_cons_self x l)
    · exact Or.inr (List.mem_cons_of_mem x h)

theorem foldl_min_init_le : ∀ (l : List Int) (a : Int), l.foldl min a ≤ a
  | [], a => le_refl a
  | x :: l, a => le_trans (foldl_min_init_le l (min a x)) (min_le_left a x)

theorem foldl_min_le_mem : ∀ (l : List Int) (a x : Int), x ∈ l → l.foldl min a ≤ x
  | y :: l, a, x, h => by
    rcases List.mem_cons.mp h with h | h
    · subst h
      exact le_trans (foldl_min_init_le l _) (min_le_right a x)
    · exact foldl_min_le_mem l _ x h

theorem foldl_min_cases : ∀ (l : List Int) (a : Int), l.foldl min a = a ∨ l.foldl min a ∈ l
  | [], _ => Or.inl rfl
  | x :: l, a => by
    rcases foldl_min_cases l (min a x) with h | h
    · rcases min_choice a x with h1 | h1
      · exact Or.inl (by rw [List.foldl_cons, h, h1])
      · exact Or.inr (by rw [List.foldl_cons, h, h1]; exact List.mem_cons_self x l)
    · exact Or.inr (List.mem_cons_of_mem x h)

theorem foldl_counters_max_ge : ∀ (cs : List Int) (a : Int × Int),
    a.1 ≤ (cs.foldl treewalk_add_counters a).1
  | [], _ => le_refl _
  | c :: cs, a => by
    refine le_trans ?_ (foldl_counters_max_ge cs (treewalk_add_counters a c))
    unfold treewalk_add_counters
    dsimp only
    split_ifs with h
    · exact le_of_lt h
    · exact le_refl _

theorem foldl_counters_max_lt : ∀ (cs : List Int) (a : Int × Int) (B : Int),
    (∀ c ∈ cs, c < B) → a.1 < B → (cs.foldl treewalk_add_counters a).1 < B
  | [], _, _, _, ha => ha
  | c :: cs, a, B, hb, ha => by
    refine foldl_counters_max_lt cs _ B (fun x hx => hb x (List.mem_cons_of_mem c hx)) ?_
    unfold treewalk_add_counters
    dsimp only
    split_ifs with h
    · exact hb c (List.mem_cons_self c cs)
    · exact ha

theorem foldl_counters_min_le : ∀ (cs : List Int) (a : Int × Int),
    (cs.foldl treewalk_add_counters a).2 ≤ a.2
  | [], _ => le_refl _
  | c :: cs, a => by
    refine le_trans (foldl_counters_min_le cs (treewalk_add_counters a c)) ?_
    unfold treewalk_add_counters
    dsimp only
    split_ifs with h
    · exact le_of_lt h
    · exact le_refl _

/-- C8: after `ev_primary`, `tw->maxNinteractions` is the maximum over all
threads of the thread's per-particle maximum, and `tw->minNinteractions` is the
minimum over all threads of the thread's per-particle minimum, as accumulated by
`treewalk_add_counters` — provided every per-particle count is below
`int64_max` (so the odd guard at line 303, which compares the reduction-private
min, still at the identity `int64_max`, against `lv->maxNinteractions`, always
fires and is benign). -/
theorem tw_C8_primary_counters (threads : List (List Int)) (hne : threads ≠ [])
    (hb : ∀ cs ∈ threads, ∀ c ∈ cs, c < int64_max) :
    ((∀ cs ∈ threads, (thread_counters cs).1 ≤ (ev_primary_counters threads).1) ∧
      ∃ cs ∈ threads, (ev_primary_counters threads).1 = (thread_counters cs).1) ∧
    ((∀ cs ∈ threads, (ev_primary_counters threads).2 ≤ (thread_counters cs).2) ∧
      ∃ cs ∈ threads, (ev_primary_counters threads).2 = (thread_counters cs).2) := by
  have hjoin : ∀ cs ∈ threads,
      ev_primary_join (int64_min, int64_max) (thread_counters cs) = thread_counters cs := by
    intro cs hcs
    have hmax0 : (0 : Int) ≤ (thread_counters cs).1 := foldl_counters_max_ge cs (0, 2 ^ 45)
    have hmaxB : (thread_counters cs).1 < int64_max :=
      foldl_counters_max_lt cs (0, 2 ^ 45) int64_max (hb cs hcs) (by norm_num [int64_max])
    unfold ev_primary_join
    dsimp only
    rw [if_pos (lt_of_lt_of_le (by norm_num [int64_min]) hmax0), if_pos hmaxB]
  have hprivs : (threads.map fun cs =>
      ev_primary_join (int64_min, int64_max) (thread_counters cs)) =
      threads.map thread_counters :=
    List.map_congr_left hjoin
  have hres : ev_primary_counters threads =
      ((threads.map fun cs => (thread_counters cs).1).foldl max 0,
       (threads.map fun cs => (thread_counters cs).2).foldl min (2 ^ 45)) := by
    unfold ev_primary_counters
    rw [hprivs]
    simp only [List.foldl_map]
  obtain ⟨cs0, threads', rfl⟩ : ∃ cs0 threads', threads = cs0 :: threads' := by
    cases threads with
    | nil => exact absurd rfl hne
    | cons cs0 threads' => exact ⟨cs0, threads', rfl⟩
  constructor
  · constructor
    · intro cs hcs
      rw [hres]
      exact le_foldl_max_mem _ 0 _ (List.mem_map_of_mem _ hcs)
    · rcases foldl_max_cases ((cs0 :: threads').map fun cs => (thread_counters cs).1) 0 with h | h
      · refine ⟨cs0, List.mem_cons_self cs0 threads', le_antisymm ?_ ?_⟩
        · rw [hres, h]
          exact foldl_counters_max_ge cs0 (0, 2 ^ 45)
        · rw [hres]
          exact le_foldl_max_mem _ 0 _ (List.mem_map_of_mem _ (List.mem_cons_self cs0 threads'))
      · rcases List.mem_map.mp h with ⟨cs, hcs, hval⟩
        exact ⟨cs, hcs, by rw [hres, ← hval]⟩
  · constructor
    · intro cs hcs
      rw [hres]
      exact foldl_min_le_mem _ (2 ^ 45) _ (List.mem_map_of_mem _ hcs)
    · rcases foldl_min_cases ((cs0 :: threads').map fun cs => (thread_counters cs).2) (2 ^ 45) with h | h
      · refine ⟨cs0, List.mem_cons_self cs0 threads', le_antisymm ?_ ?_⟩
        · rw [hres]
          exact foldl_min_le_mem _ (2 ^ 45) _ (List.mem_map_of_mem _ (List.mem_cons_self cs0 threads'))
        · rw [hres, h]
          exact foldl_counters_min_le cs0 (0, 2 ^ 45)
      · rcases List.mem_map.mp h with ⟨cs, hcs, hval⟩
        exact ⟨cs, hcs, by rw [hres, ← hval]⟩

/-- Witness for C8: two threads with particle interaction counts `[3, 5]` and
`[2]`. -/
theorem tw_C8_primary_counters_witness :
    ([[3, 5], [2]] : List (List Int)) ≠ [] ∧
    (∀ cs ∈ ([[3, 5], [2]] : List (List Int)), ∀ c ∈ cs, c < int64_max) ∧
    (((∀ cs ∈ ([[3, 5], [2]] : List (List Int)),
        (thread_counters cs).1 ≤ (ev_primary_counters [[3, 5], [2]]).1) ∧
      ∃ cs ∈ ([[3, 5], [2]] : List (List Int)),
        (ev_primary_counters [[3, 5], [2]]).1 = (thread_counters cs).1) ∧
    ((∀ cs ∈ ([[3, 5], [2]] : List (List Int)),
        (ev_primary_counters [[3, 5], [2]]).2 ≤ (thread_counters cs).2) ∧
      ∃ cs ∈ ([[3, 5], [2]] : List (List Int)),
        (ev_primary_counters [[3, 5], [2]]).2 = (thread_counters cs).2)) :=
  ⟨by decide, by decide, tw_C8_primary_counters [[3, 5], [2]] (by decide) (by decide)⟩

theorem DMAX_eq_max (a b : ℚ) : DMAX a b = max a b := by
  unfold DMAX
  split_ifs with h
  · exact (max_eq_left (le_of_lt h)).symm
  · exact (max_eq_right (not_lt.mp h)).symm

/-- C6: `cull_node` is a pure function that returns 1 (keep) exactly when every
axis's periodic nearest-image displacement has absolute value at most `d`
(`d = max(hmax, Hsml) + len/2` when symmetric, `Hsml + len/2` otherwise) and
the sum of squared displacements is at most `(d + FACT1 * len)^2`, and returns
0 (reject) otherwise. -/
theorem tw_C6_cull_node_spec (I : TreeWalkQueryBase) (iter : TreeWalkNgbIterBase)
    (current : NODE) (BoxSize : ℚ) :
    (cull_node I iter current BoxSize = 1 ↔ cull_node_keep I iter current BoxSize) ∧
    (cull_node I iter current BoxSize = 0 ↔ ¬ cull_node_keep I iter current BoxSize) := by
  have hdist : (if iter.symmetric then DMAX current.hmax iter.Hsml + 0.5 * current.len
      else iter.Hsml + 0.5 * current.len) = cull_dist iter current := by
    unfold cull_dist
    rw [DMAX_eq_max]
    split_ifs <;> ring
  have habs : ∀ x dd : ℚ, ¬ x > dd → ¬ x < -dd → |x| ≤ dd := by
    intro x dd h1 h2
    exact abs_le.mpr ⟨not_lt.mp h2, not_lt.mp h1⟩
  have hiff : cull_node I iter current BoxSize = 1 ↔
      cull_node_keep I iter current BoxSize := by
    constructor
    · intro h
      simp only [cull_node] at h
      rw [hdist] at h
      split_ifs at h with h1 h2 h3 h4 h5 h6 h7
      · exact absurd h (by decide)
      · exact absurd h (by decide)
      · exact absurd h (by decide)
      · exact absurd h (by decide)
      · exact absurd h (by decide)
      · exact absurd h (by decide)
      · exact absurd h (by decide)
      · refine ⟨habs _ _ h1 h2, habs _ _ h3 h4, habs _ _ h5 h6, ?_⟩
        have h7' := not_lt.mp h7
        simp only [pow_two]
        linarith
    · intro hk
      obtain ⟨hk0, hk1, hk2, hk4⟩ := hk
      rw [abs_le] at hk0 hk1 hk2
      simp only [pow_two] at hk4
      simp only [cull_node]
      rw [hdist]
      rw [if_neg (not_lt.mpr hk0.2), if_neg (not_lt.mpr hk0.1),
        if_neg (not_lt.mpr hk1.2), if_neg (not_lt.mpr hk1.1),
        if_neg (not_lt.mpr hk2.2), if_neg (not_lt.mpr hk2.1),
        if_neg (not_lt.mpr hk4)]
  have htot : cull_node I iter current BoxSize = 0 ∨
      cull_node I iter current BoxSize = 1 := by
    simp only [cull_node]
    split_ifs <;> simp
  refine ⟨hiff, ⟨fun h0 hk => ?_, fun hnk => ?_⟩⟩
  · have h1 := hiff.mpr hk
    rw [h0] at h1
    exact absurd h1 (by decide)
  · rcases htot with h | h
    · exact h
    · exact absurd (hiff.mp h) hnk

theorem queueInput_length_le (active_set : Option (List Int)) (size : Nat) :
    (queueInput active_set size).length ≤ size := by
  unfold queueInput
  cases active_set with
  | some l =>
    rw [List.length_take]
    exact min_le_left _ _
  | none => simp

theorem size_le_chunks (size NThread : Nat) (h : 0 < NThread) :
    size ≤ NThread * (size / NThread + 1) := by
  have h1 := (Nat.div_add_mod size NThread).symm
  have h2 : size % NThread < NThread := Nat.mod_lt _ h
  calc size = NThread * (size / NThread) + size % NThread := h1
    _ ≤ NThread * (size / NThread) + NThread := by omega
    _ = NThread * (size / NThread + 1) := by ring

theorem join_chunks_eq : ∀ (n : Nat) (s : Nat) (l : List Int), l.length ≤ n * s →
    (((List.range n).map fun t => (l.drop (t * s)).take s)).flatten = l := by
  intro n
  induction n with
  | zero =>
    intro s l h
    have hl : l = [] := List.eq_nil_of_length_eq_zero (by omega)
    subst hl
    rfl
  | succ n ih =>
    intro s l h
    rw [List.range_succ_eq_map, List.map_cons, List.map_map, List.flatten_cons]
    have hcomp : ((fun t => (l.drop (t * s)).take s) ∘ Nat.succ) =
        fun t => (((l.drop s).drop (t * s)).take s) := by
      funext t
      simp only [Function.comp_apply]
      rw [List.drop_drop]
      congr 2
      rw [Nat.succ_mul]
      ring
    rw [hcomp, ih s (l.drop s) (by
      rw [List.length_drop]
      have hs : (n + 1) * s = n * s + s := by ring
      exact Nat.sub_le_iff_le_add.mpr (by omega))]
    simp only [Nat.zero_mul, List.drop_zero]
    exact List.take_append_drop s l

theorem map_filter_join_eq : ∀ (L : List Nat) (f : Nat → List Int) (p : Int → Bool),
    ((L.map fun t => (f t).filter p)).flatten = ((L.map f).flatten).filter p
  | [], _, _ => rfl
  | t :: L, f, p => by
    rw [List.map_cons, List.map_cons, List.flatten_cons, List.flatten_cons,
      List.filter_append, map_filter_join_eq L f p]

/-- C7: the work queue built by `treewalk_build_queue` equals the list obtained
by scanning the active set sequentially in input order, keeping exactly the
particles that are not garbage and for which `haswork` (when present) returns
true; in particular the queue preserves the input order.  In the verbatim case
(no `haswork`, `may_have_garbage = 0`) the caller guarantees the set holds no
garbage, which is the hypothesis `hverbatim`. -/
theorem tw_C7_build_queue_order (garbage : Int → Bool) (haswork : Option (Int → Bool))
    (active_set : Option (List Int)) (size : Nat) (may_have_garbage : Bool)
    (NThread : Nat) (hT : 0 < NThread)
    (hverbatim : haswork.isNone = true → may_have_garbage = false →
      ∀ p ∈ queueInput active_set size, garbage p = false) :
    treewalk_build_queue garbage haswork active_set size may_have_garbage NThread =
      seqFilterQueue garbage haswork active_set size := by
  unfold treewalk_build_queue seqFilterQueue
  by_cases hcase : (haswork.isNone && !may_have_garbage) = true
  · rw [if_pos hcase]
    obtain ⟨h1, h2⟩ := Bool.and_eq_true_iff.mp hcase
    have h2' : may_have_garbage = false := by
      cases may_have_garbage
      · rfl
      · exact absurd h2 (by decide)
    obtain rfl : haswork = none := Option.isNone_iff_eq_none.mp h1
    refine (List.filter_eq_self.mpr fun p hp => ?_).symm
    unfold queueKeep
    rw [hverbatim h1 h2' p hp]
    rfl
  · rw [if_neg hcase]
    have hlen : (queueInput active_set size).length ≤ NThread * (size / NThread + 1) :=
      le_trans (queueInput_length_le active_set size) (size_le_chunks size NThread hT)
    rw [map_filter_join_eq, join_chunks_eq NThread (size / NThread + 1)
      (queueInput active_set size) hlen]

/-- Witness for C7: active set `[1, 2, 3, 7]`, particle 2 garbage, `haswork`
keeping particles at most 5, two threads. -/
theorem tw_C7_build_queue_order_witness :
    0 < 2 ∧
    ((some fun p : Int => decide (p ≤ 5)).isNone = true → true = false →
      ∀ p ∈ queueInput (some [1, 2, 3, 7]) 4, (fun q : Int => q == 2) p = false) ∧
    treewalk_build_queue (fun q : Int => q == 2) (some fun p : Int => decide (p ≤ 5))
        (some [1, 2, 3, 7]) 4 true 2 =
      seqFilterQueue (fun q : Int => q == 2) (some fun p : Int => decide (p ≤ 5))
        (some [1, 2, 3, 7]) 4 :=
  ⟨by decide, by decide,
    tw_C7_build_queue_order (fun q : Int => q == 2) (some fun p : Int => decide (p ≤ 5))
      (some [1, 2, 3, 7]) 4 true 2 (by decide) (by decide)⟩

theorem bumpCount_eq (c : Int → Nat) (t s : Int) :
    bumpCount c t s = if s = t then c s + 1 else c s := by
  unfold bumpCount
  split_ifs with h
  · rw [h]
  · rfl

theorem taskCount_cons (e : data_index) (l : List data_index) (t : Int) :
    taskCount (e :: l) t = taskCount l t + if e.Task = t then 1 else 0 := by
  unfold taskCount
  rw [List.countP_cons]
  congr 1
  by_cases h : e.Task = t
  · simp [h]
  · simp [h]

theorem recv_positions_eq_send : ∀ (l : List data_index) (off c : Int → Nat),
    recv_positions off c l = send_positions off c l
  | [], _, _ => rfl
  | e :: l, off, c => by
    simp only [recv_positions, send_positions]
    rw [recv_positions_eq_send l off (bumpCount c e.Task)]

theorem send_positions_fst : ∀ (l : List data_index) (off c : Int → Nat),
    (send_positions off c l).map Prod.fst = l
  | [], _, _ => rfl
  | e :: l, off, c => by
    simp only [send_positions, List.map_cons]
    rw [send_positions_fst l off (bumpCount c e.Task)]

theorem send_positions_mem_fst : ∀ (l : List data_index) (off c : Int → Nat)
    (ep : data_index × Nat), ep ∈ send_positions off c l → ep.1 ∈ l
  | [], _, _, ep, h => absurd h (List.not_mem_nil ep)
  | e :: l, off, c, ep, h => by
    rcases List.mem_cons.mp h with h | h
    · subst h
      exact List.mem_cons_self e l
    · exact List.mem_cons_of_mem e (send_positions_mem_fst l off (bumpCount c e.Task) ep h)

theorem send_positions_bounds : ∀ (l : List data_index) (off c : Int → Nat)
    (ep : data_index × Nat), ep ∈ send_positions off c l →
      off ep.1.Task + c ep.1.Task ≤ ep.2 ∧
      ep.2 < off ep.1.Task + c ep.1.Task + taskCount l ep.1.Task
  | [], _, _, ep, h => absurd h (List.not_mem_nil ep)
  | e :: l, off, c, ep, h => by
    rcases List.mem_cons.mp h with h | h
    · subst h
      dsimp only
      have h1 : taskCount (e :: l) e.Task = taskCount l e.Task + 1 := by
        rw [taskCount_cons, if_pos rfl]
      constructor
      · omega
      · omega
    · have ih := send_positions_bounds l off (bumpCount c e.Task) ep h
      rw [bumpCount_eq] at ih
      rw [taskCount_cons]
      by_cases ht : ep.1.Task = e.Task
      · rw [if_pos ht] at ih
        rw [if_pos (ht.symm)]
        omega
      · rw [if_neg ht] at ih
        rw [if_neg (fun hh => ht hh.symm)]
        omega

theorem send_positions_nodup : ∀ (l : List data_index) (off c cap : Int → Nat)
    (NTask : Nat),
    (∀ e ∈ l, 0 ≤ e.Task ∧ e.Task < (NTask : Int)) →
    (∀ t : Int, c t + taskCount l t ≤ cap t) →
    (∀ s t : Int, 0 ≤ s → s < t → t < (NTask : Int) → off s + cap s ≤ off t) →
    ((send_positions off c l).map Prod.snd).Nodup := by
  intro l
  induction l with
  | nil => intro off c cap NTask hr hcap hsep; simp [send_positions]
  | cons e l ih =>
    intro off c cap NTask hr hcap hsep
    simp only [send_positions, List.map_cons, List.nodup_cons]
    constructor
    · intro hmem
      rcases List.mem_map.mp hmem with ⟨ep, hep, hval⟩
      have hbound := send_positions_bounds l off (bumpCount c e.Task) ep hep
      rw [bumpCount_eq] at hbound
      have hU : ep.1 ∈ l := send_positions_mem_fst l off (bumpCount c e.Task) ep hep
      have hUr := hr ep.1 (List.mem_cons_of_mem e hU)
      have hTr := hr e (List.mem_cons_self e l)
      have hcapT := hcap e.Task
      have hcapU := hcap ep.1.Task
      rw [taskCount_cons, if_pos rfl] at hcapT
      by_cases ht : ep.1.Task = e.Task
      · rw [if_pos ht, ht] at hbound
        omega
      · rw [if_neg ht] at hbound
        rw [taskCount_cons, if_neg (fun hh => ht hh.symm)] at hcapU
        rcases lt_trichotomy ep.1.Task e.Task with hlt | heq | hgt
        · have hs := hsep ep.1.Task e.Task hUr.1 hlt hTr.2
          omega
        · exact ht heq
        · have hs := hsep e.Task ep.1.Task hTr.1 hgt hUr.2
          omega
    · refine ih off (bumpCount c e.Task) cap NTask
        (fun x hx => hr x (List.mem_cons_of_mem e hx)) (fun t => ?_) hsep
      rw [bumpCount_eq]
      have := hcap t
      rw [taskCount_cons] at this
      by_cases ht : t = e.Task
      · rw [if_pos ht]
        rw [if_pos ht.symm] at this
        omega
      · rw [if_neg ht]
        rw [if_neg (fun hh => ht hh.symm)] at this
        omega

theorem export_count_eq_taskCount : ∀ (l : List data_index) (c : Int → Nat) (t : Int),
    export_count l c t = c t + taskCount l t
  | [], c, t => by simp [export_count, taskCount]
  | e :: l, c, t => by
    simp only [export_count]
    rw [export_count_eq_taskCount l (bumpCount c e.Task) t, bumpCount_eq, taskCount_cons]
    by_cases ht : t = e.Task
    · rw [if_pos ht, if_pos ht.symm]
      omega
    · rw [if_neg ht, if_neg (fun hh => ht hh.symm)]
      omega

theorem export_offset_mono (cnt : Nat → Nat) : ∀ a b : Nat, a ≤ b →
    export_offset cnt a ≤ export_offset cnt b := by
  intro a b
  induction b with
  | zero =>
    intro h
    have ha : a = 0 := Nat.le_zero.mp h
    rw [ha]
  | succ b ihb =>
    intro h
    rcases Nat.lt_or_ge a (b + 1) with h1 | h1
    · calc export_offset cnt a ≤ export_offset cnt b := ihb (Nat.lt_succ_iff.mp h1)
        _ ≤ export_offset cnt b + cnt b := Nat.le_add_right _ _
        _ = export_offset cnt (b + 1) := rfl
    · rw [le_antisymm h h1]

/-- C5: for every flattened DataIndexTable (thread slices in order, every task
id in range), the buffer position at which `ev_reduce_export_result` reads an
entry's result equals the position at which `ev_send_recv_export_import` wrote
that entry's query; the scan covers each export entry exactly once in order, and
positions of distinct entries are distinct — so `reduce(place, result, GHOSTS)`
is called exactly once per export entry on the result that entry's query
produced. -/
theorem tw_C5_export_result_pairing (l : List data_index) (NTask : Nat)
    (hr : ∀ e ∈ l, 0 ≤ e.Task ∧ e.Task < (NTask : Int)) :
    recv_positions (offFor l) (fun _ => 0) l = send_positions (offFor l) (fun _ => 0) l ∧
    (send_positions (offFor l) (fun _ => 0) l).map Prod.fst = l ∧
    ((send_positions (offFor l) (fun _ => 0) l).map Prod.snd).Nodup := by
  refine ⟨recv_positions_eq_send l _ _, send_positions_fst l _ _, ?_⟩
  refine send_positions_nodup l (offFor l) (fun _ => 0) (taskCount l) NTask hr
    (fun t => by simp) ?_
  intro s t hs hst ht
  unfold offFor
  have hcnt : (fun k => export_count l (fun _ => 0) ((k : Nat) : Int)) s.toNat = taskCount l s := by
    dsimp only
    rw [export_count_eq_taskCount]
    rw [Int.toNat_of_nonneg hs]
    omega
  have hstep : export_offset (fun k => export_count l (fun _ => 0) ((k : Nat) : Int)) s.toNat +
      taskCount l s =
      export_offset (fun k => export_count l (fun _ => 0) ((k : Nat) : Int)) (s.toNat + 1) := by
    rw [← hcnt]
    rfl
  rw [hstep]
  exact export_offset_mono _ (s.toNat + 1) t.toNat (by omega)

/-- Witness for C5: three export entries, two to task 1 and one to task 0.
The write/read positions agree (entries land at buffer slots 1, 0, 2) and are
pairwise distinct. -/
theorem tw_C5_export_result_pairing_witness :
    (∀ e ∈ [(⟨1, 7, (5, -1)⟩ : data_index), ⟨0, 8, (6, -1)⟩, ⟨1, 9, (5, -1)⟩],
      0 ≤ e.Task ∧ e.Task < ((2 : Nat) : Int)) ∧
    (recv_positions (offFor [⟨1, 7, (5, -1)⟩, ⟨0, 8, (6, -1)⟩, ⟨1, 9, (5, -1)⟩]) (fun _ => 0)
        [⟨1, 7, (5, -1)⟩, ⟨0, 8, (6, -1)⟩, ⟨1, 9, (5, -1)⟩] =
      send_positions (offFor [⟨1, 7, (5, -1)⟩, ⟨0, 8, (6, -1)⟩, ⟨1, 9, (5, -1)⟩]) (fun _ => 0)
        [⟨1, 7, (5, -1)⟩, ⟨0, 8, (6, -1)⟩, ⟨1, 9, (5, -1)⟩] ∧
    (send_positions (offFor [⟨1, 7, (5, -1)⟩, ⟨0, 8, (6, -1)⟩, ⟨1, 9, (5, -1)⟩]) (fun _ => 0)
        [⟨1, 7, (5, -1)⟩, ⟨0, 8, (6, -1)⟩, ⟨1, 9, (5, -1)⟩]).map Prod.fst =
      [⟨1, 7, (5, -1)⟩, ⟨0, 8, (6, -1)⟩, ⟨1, 9, (5, -1)⟩] ∧
    ((send_positions (offFor [⟨1, 7, (5, -1)⟩, ⟨0, 8, (6, -1)⟩, ⟨1, 9, (5, -1)⟩]) (fun _ => 0)
        [⟨1, 7, (5, -1)⟩, ⟨0, 8, (6, -1)⟩, ⟨1, 9, (5, -1)⟩]).map Prod.snd).Nodup) :=
  ⟨by decide,
    tw_C5_export_result_pairing [⟨1, 7, (5, -1)⟩, ⟨0, 8, (6, -1)⟩, ⟨1, 9, (5, -1)⟩] 2
      (by decide)⟩

/-- C1: FALSE on the code (code bug).  The declaration `int64_t lastSucceeded`
at treewalk.c line 410 shadows the `reduction(min:)` variable of line 396 for
the rest of the parallel region, so the reduction only combines the untouched
private copies (still at the identity `INT_MAX`) with the entry value
`workSetSize`, and line 484 sets `tw->WorkSetStart = workSetSize + 1` whatever
the threads completed — contradicting the comment at lines 480-483.  Concretely:
a single-thread run over 4 particles with a 1-entry export buffer, where
particle 0 exports one entry and particle 1 would export another.  The thread's
highest successfully completed index (the inner `lastSucceeded`) is 0, so the
claim requires the next pass to resume at `WorkSetStart = 0 + 1 = 1`, but
`ev_toptree` returns `WorkSetStart = 5`. -/
theorem tw_C1_toptree_resume_bug :
    toptree_summary (ev_toptree ⟨10, fun i => ⟨1, 100 + i⟩⟩
        (fun k => if k = 0 then [10] else if k = 1 then [11] else [])
        0 4 1 (fun _ => ⟨0, 0, (0, 0)⟩)) = some (5, 0, 1, 0) ∧
      (5 : Int) ≠ 0 + 1 :=
  ⟨by decide, by decide⟩

/-- C3: FALSE on the code (code bug).  The rollback guard at treewalk.c line
461 is `lastSucceeded < end`, which is always true (`lastSucceeded` is at most
`end - 1`), so whenever the buffer is exactly full after a chunk whose last
particle was visited successfully, the decrement at line 464 discards that
successful target's complete export list — contradicting the comment at line
460 (and the claim that only the OVERFLOW target's entries are discarded).
Concretely: a single-thread run over 1 particle with a 1-entry export buffer;
particle 0's visit succeeds (inner `lastSucceeded = 0`) and appends exactly one
entry, filling the buffer; no visit returned OVERFLOW, yet the published
`Nexport_thread[0]` is 0 instead of 1: the complete export list was rolled
back. -/
theorem tw_C3_rollback_bug :
    toptree_summary (ev_toptree ⟨10, fun i => ⟨1, 100 + i⟩⟩
        (fun k => if k = 0 then [10] else [])
        0 1 1 (fun _ => ⟨0, 0, (0, 0)⟩)) = some (2, 0, 1, 0) ∧
      (0 : Nat) ≠ 1 :=
  ⟨by decide, by decide⟩

/-- C9 counterexample: the claim `left <= h <= right` is FALSE as stated.  With
trial radii `[0, 1]`, neighbour counts `[0, 10]`, desired count 10, incoming
bracket `left = 0`, `right = 1.1` and box size 100: the loop leaves
`left = radius[0] = 0` and `right = 1.1` untouched, the closest trial is
`radius[1] = 1`, and — because the `*left == 0` extrapolation at lines
1299-1313 runs after the clamp to `*right` at line 1296 — the returned
smoothing length is `2^(1/3) > 1.1 = *right`. -/
theorem tw_C9_counterexample :
    (ngb_narrow_down 1.1 0 (fun n => if n = 1 then 1 else 0)
        (fun n => if n = 1 then 10 else 0) 2 10 100).1 >
      (ngb_narrow_down 1.1 0 (fun n => if n = 1 then 1 else 0)
        (fun n => if n = 1 then 10 else 0) 2 10 100).2.2 := by
  have habs1 : |(0 : ℝ) - 10| = 10 := by
    rw [abs_of_nonpos (by norm_num)]
    norm_num
  have habs1' : |(-10 : ℝ)| = 10 := by
    rw [abs_of_nonpos (by norm_num)]
    norm_num
  have hnn : (0 : ℝ) ≤ (2 : ℝ) ^ ((1 : ℝ) / 3) := Real.rpow_nonneg (by norm_num) _
  have hlt : ¬ ((2 : ℝ) ^ ((1 : ℝ) / 3) < 0) := not_lt.mpr hnn
  have hval : ngb_narrow_down 1.1 0 (fun n => if n = 1 then 1 else 0)
      (fun n => if n = 1 then 10 else 0) 2 10 100 = ((2 : ℝ) ^ ((1 : ℝ) / 3), 0, 1.1) := by
    norm_num [ngb_narrow_down, ngb_close_loop, ngb_bracket_loop, habs1, habs1', hlt]
  rw [hval]
  have ha : ((1.1 : ℝ)) ^ (3 : ℕ) < 2 := by norm_num
  have hb : ((1.1 : ℝ) ^ (3 : ℕ)) ^ ((1 : ℝ) / 3) = (1.1 : ℝ) := by
    rw [← Real.rpow_natCast (1.1 : ℝ) 3, ← Real.rpow_mul (by norm_num : (0 : ℝ) ≤ 1.1)]
    norm_num
  have hc : ((1.1 : ℝ) ^ (3 : ℕ)) ^ ((1 : ℝ) / 3) < (2 : ℝ) ^ ((1 : ℝ) / 3) :=
    Real.rpow_lt_rpow (by positivity) ha (by norm_num)
  rw [hb] at hc
  exact hc

/-- C9 (amended): after a call of `ngb_narrow_down`, the returned smoothing
length `h` satisfies `left <= h <= right` for the updated `*left` and `*right`
provided the updated `*left` is nonzero (so the `*left == 0` dN/dV
extrapolation, which runs after the clamp to `*right` and may push `h` above
`*right`, is skipped) and the updated bracket is consistent
(`*left <= *right`). -/
theorem tw_C9_bracket_amended (right left : ℝ) (radius numNgb : ℕ → ℝ)
    (maxcmpt : ℕ) (desnumngb : ℤ) (BoxSize : ℝ)
    (hL : (ngb_narrow_down right left radius numNgb maxcmpt desnumngb BoxSize).2.1 ≠ 0)
    (hLR : (ngb_narrow_down right left radius numNgb maxcmpt desnumngb BoxSize).2.1 ≤
      (ngb_narrow_down right left radius numNgb maxcmpt desnumngb BoxSize).2.2) :
    (ngb_narrow_down right left radius numNgb maxcmpt desnumngb BoxSize).2.1 ≤
      (ngb_narrow_down right left radius numNgb maxcmpt desnumngb BoxSize).1 ∧
    (ngb_narrow_down right left radius numNgb maxcmpt desnumngb BoxSize).1 ≤
      (ngb_narrow_down right left radius numNgb maxcmpt desnumngb BoxSize).2.2 := by
  simp only [ngb_narrow_down] at hL hLR ⊢
  rw [if_neg hL]
  constructor
  · split_ifs <;> linarith
  · split_ifs <;> linarith

/-- Witness for the amended C9: trial radii `[1, 2]`, counts `[5, 15]`, desired
10, incoming bracket `(0, 50)`: the call returns `h = 1` with updated bracket
`(1, 2)`, and `1 <= 1 <= 2`. -/
theorem tw_C9_bracket_amended_witness :
    (ngb_narrow_down 50 0 (fun n => ((n : ℝ) + 1))
        (fun n => if n = 0 then (5 : ℝ) else 15) 2 10 100).2.1 ≠ 0 ∧
    (ngb_narrow_down 50 0 (fun n => ((n : ℝ) + 1))
        (fun n => if n = 0 then (5 : ℝ) else 15) 2 10 100).2.1 ≤
      (ngb_narrow_down 50 0 (fun n => ((n : ℝ) + 1))
        (fun n => if n = 0 then (5 : ℝ) else 15) 2 10 100).2.2 ∧
    ((ngb_narrow_down 50 0 (fun n => ((n : ℝ) + 1))
        (fun n => if n = 0 then (5 : ℝ) else 15) 2 10 100).2.1 ≤
      (ngb_narrow_down 50 0 (fun n => ((n : ℝ) + 1))
        (fun n => if n = 0 then (5 : ℝ) else 15) 2 10 100).1 ∧
    (ngb_narrow_down 50 0 (fun n => ((n : ℝ) + 1))
        (fun n => if n = 0 then (5 : ℝ) else 15) 2 10 100).1 ≤
      (ngb_narrow_down 50 0 (fun n => ((n : ℝ) + 1))
        (fun n => if n = 0 then (5 : ℝ) else 15) 2 10 100).2.2) := by
  have habs1 : |(5 : ℝ) - 10| = 5 := by
    rw [abs_of_nonpos (by norm_num)]
    norm_num
  have habs2 : |(15 : ℝ) - 10| = 5 := by
    rw [abs_of_nonneg (by norm_num)]
    norm_num
  have hval : ngb_narrow_down 50 0 (fun n => ((n : ℝ) + 1))
      (fun n => if n = 0 then (5 : ℝ) else 15) 2 10 100 = (1, 1, 2) := by
    norm_num [ngb_narrow_down, ngb_close_loop, ngb_bracket_loop, habs1, habs2]
  refine ⟨by rw [hval]; norm_num, by rw [hval]; norm_num, ?_⟩
  exact tw_C9_bracket_amended 50 0 (fun n => ((n : ℝ) + 1))
    (fun n => if n = 0 then (5 : ℝ) else 15) 2 10 100
    (by rw [hval]; norm_num) (by rw [hval]; norm_num)
